import Mathlib

/-!
Verification of the token-stream renderer of `gen_pdf.py`.

The embedding models the painting calls issued by `create_pdf` (lines 74-107
of `src/gen_pdf.py`) as an explicit instruction stream: `pdf.write` becomes
`Instr.run`, `pdf.ln` becomes `Instr.lineBreak`, a line-number `pdf.cell`
together with the gray `set_text_color` immediately before it becomes
`Instr.label` (the gray never leaks: the code always resets the color right
after the cell), `pdf.set_text_color` becomes `Instr.setColor` and
`pdf.set_font` becomes `Instr.setFont`.  Token text is a `List Char`;
`splitNl` mirrors Python's `str.split('\x5cn')`.
-/

/-- An RGB color triple, each component 0-255. -/
abbrev RGB := Nat × Nat × Nat

/-- The fixed gray used for line-number labels (line 75 / 103 of the source). -/
def gray : RGB := (128, 128, 128)

/-- The color and bold/italic flags resolved for a token kind
(`style.style_for_token` composed with `hex_to_rgb`). -/
structure StyleSpec where
  color : RGB
  bold : Bool
  italic : Bool
deriving DecidableEq, Repr

/-- One painting instruction issued to the layout engine. -/
inductive Instr where
  | setFont (family : String) (style : String) (size : Nat)
  | setColor (c : RGB)
  | run (text : List Char)
  | lineBreak
  | label (number : Nat) (text : String) (c : RGB)
deriving DecidableEq, Repr

/-- Python `str.split('\x5cn')` on a list of characters: splits on every
newline, preserving empty segments; the result is always non-empty. -/
def splitNl : List Char → List (List Char)
  | [] => [[]]
  | c :: cs =>
    if c = '\n' then [] :: splitNl cs
    else
      match splitNl cs with
      | [] => [[c]]
      | s :: rest => (c :: s) :: rest

/-- Inverse of `splitNl`: rejoin segments with a newline between them. -/
def intercalateNl : List (List Char) → List Char
  | [] => []
  | [s] => s
  | s :: rest => s ++ '\n' :: intercalateNl rest

/-- Number of newline characters in a token text (the number of embedded
line breaks). -/
def countNl : List Char → Nat
  | [] => 0
  | c :: cs => (if c = '\n' then 1 else 0) + countNl cs

/-- The line-number label text, Python `f"\x7bline_num:4d\x7d "`: the decimal
digits right-aligned in a 4-character minimum field padded with spaces on
the left, followed by one separator space (lines 76 and 104). -/
def fmtLineNum (n : Nat) : String :=
  let s := toString n
  (if s.length < 4 then String.mk (List.replicate (4 - s.length) ' ') else "") ++ s ++ " "

/-- The claim's wording of the label format: the digits left-aligned in a
fixed 4-character field, followed by a separator space.  Stated only to be
compared against `fmtLineNum`, which is what the source produces. -/
def fmtLineNumLeftAligned (n : Nat) : String :=
  let s := toString n
  s ++ (if s.length < 4 then String.mk (List.replicate (4 - s.length) ' ') else "") ++ " "

/-- The font style string computed for a token (lines 84-91): bold/italic
flags are honoured only for the built-in Courier font. -/
def fontStyle (fontName : String) (spec : StyleSpec) : String :=
  if fontName = "Courier" then
    (if spec.bold then "B" else "") ++ (if spec.italic then "I" else "")
  else ""

/-- The font actually used for code (lines 44-50): a custom font when a path
was supplied and `add_font` succeeded, Courier otherwise. -/
def resolveFontName (fontPath : Option String) (loadOk : Bool) : String :=
  match fontPath with
  | none => "Courier"
  | some _ => if loadOk then "CustomFont" else "Courier"

/-- The inner segment loop (lines 97-105): for each segment except the last,
paint it when non-empty, then break the line, advance the counter and paint
the next label in gray followed by a reset to the token's color; the last
segment is painted (when non-empty) with no line advance. -/
def renderSegs (color : RGB) : Nat → List (List Char) → List Instr × Nat
  | n, [] => ([], n)
  | n, [last] => ((if last.isEmpty then [] else [Instr.run last]), n)
  | n, seg :: next :: rest =>
    let tail := renderSegs color (n + 1) (next :: rest)
    ((if seg.isEmpty then [] else [Instr.run seg]) ++
      Instr.lineBreak :: Instr.label (n + 1) (fmtLineNum (n + 1)) gray ::
        Instr.setColor color :: tail.1,
     tail.2)

/-- Processing of one token (lines 80-105): set the font with the resolved
style, set the token's color, then run the segment loop on the text split at
newlines.  Returns the emitted instructions and the new line number. -/
def renderToken (fontName : String) (fontSize : Nat) (spec : StyleSpec) (n : Nat)
    (text : List Char) : List Instr × Nat :=
  let segs := renderSegs spec.color n (splitNl text)
  (Instr.setFont fontName (fontStyle fontName spec) fontSize ::
    Instr.setColor spec.color :: segs.1, segs.2)

/-- The token loop: process each token in order, threading the line number. -/
def renderTokens (fontName : String) (fontSize : Nat) {κ : Type} (styleOf : κ → StyleSpec) :
    Nat → List (κ × List Char) → List Instr × Nat
  | n, [] => ([], n)
  | n, (k, t) :: rest =>
    let fst := renderToken fontName fontSize (styleOf k) n t
    let snd := renderTokens fontName fontSize styleOf fst.2 rest
    (fst.1 ++ snd.1, snd.2)

/-- The whole instruction stream for one file body (lines 74-107): the label
for line 1 in gray, a reset to the default text color, the token loop
starting at line 1, and a final reset to the default text color. -/
def renderFile (fontName : String) (fontSize : Nat) (defaultColor : RGB) {κ : Type}
    (styleOf : κ → StyleSpec) (tokens : List (κ × List Char)) : List Instr :=
  Instr.label 1 (fmtLineNum 1) gray :: Instr.setColor defaultColor ::
    (renderTokens fontName fontSize styleOf 1 tokens).1 ++ [Instr.setColor defaultColor]

/-- Text reconstruction from an instruction stream: run texts in order, a
newline at every line-break signal, all other instructions ignored. -/
def reconstruct : List Instr → List Char
  | [] => []
  | Instr.run t :: rest => t ++ reconstruct rest
  | Instr.lineBreak :: rest => '\n' :: reconstruct rest
  | Instr.setFont _ _ _ :: rest => reconstruct rest
  | Instr.setColor _ :: rest => reconstruct rest
  | Instr.label _ _ _ :: rest => reconstruct rest

/-- Number of line-number labels in an instruction stream. -/
def labelCount : List Instr → Nat
  | [] => 0
  | Instr.label _ _ _ :: rest => labelCount rest + 1
  | Instr.setFont _ _ _ :: rest => labelCount rest
  | Instr.setColor _ :: rest => labelCount rest
  | Instr.run _ :: rest => labelCount rest
  | Instr.lineBreak :: rest => labelCount rest

/-- Number of render runs in an instruction stream. -/
def runCount : List Instr → Nat
  | [] => 0
  | Instr.run _ :: rest => runCount rest + 1
  | Instr.setFont _ _ _ :: rest => runCount rest
  | Instr.setColor _ :: rest => runCount rest
  | Instr.label _ _ _ :: rest => runCount rest
  | Instr.lineBreak :: rest => runCount rest

/-- `true` iff every label in the stream is immediately followed by a
`setColor c` instruction. -/
def labelsFollowedBy (c : RGB) : List Instr → Bool
  | [] => true
  | Instr.label _ _ _ :: rest =>
    match rest with
    | Instr.setColor c2 :: _ => c2 == c && labelsFollowedBy c rest
    | _ => false
  | _ :: rest => labelsFollowedBy c rest

/-- `true` on every instruction that is not a run containing a newline. -/
def runNoNl : Instr → Bool
  | Instr.run t => !(t.contains '\n')
  | _ => true

/-- `true` on every instruction that is not a `setFont` with a non-empty
style string. -/
def plainFontStyle : Instr → Bool
  | Instr.setFont _ st _ => st.isEmpty
  | _ => true

/-- `true` on every instruction that is not a label whose text deviates from
`fmtLineNum` of its number or whose color is not the fixed gray. -/
def labelWellFormed : Instr → Bool
  | Instr.label m txt c => txt == fmtLineNum m && c == gray
  | _ => true

/-- Python's `str.endswith`: a case-sensitive check that `file` ends with
the characters of `suffix`. -/
def strEndsWith (file suffix : String) : Bool :=
  suffix.data.isSuffixOf file.data

/-- The filename filter of `find_files` (lines 15-23): keep a file iff its
name ends with one of the accepted extensions (Python
`file.endswith(tuple(extensions))`) and, independently, with none of the
excluded suffixes; the exclusion check runs after the inclusion check and
discards the file even when an extension also matched. -/
def matchesFile (extensions exclude_suffixes : List String) (file : String) : Bool :=
  if !(extensions.any fun ext => strEndsWith file ext) then false
  else if exclude_suffixes.any fun suffix => strEndsWith file suffix then false
  else true

/-- `find_files` over an abstract directory listing: the files of the walk,
in order, filtered by `matchesFile`. -/
def find_files (extensions exclude_suffixes : List String) (files : List String) : List String :=
  files.filter (matchesFile extensions exclude_suffixes)

/-- One input file as the Document Assembler sees it: its path and either
the token sequence obtained from reading and tokenizing it, or the failure
reason when reading, decoding or tokenization raised. -/
structure FileInput (κ : Type) where
  path : String
  content : Except String (List (κ × List Char))

/-- One page-level action of the Document Assembler. -/
inductive PageInstr where
  | pageStart (path : String)
  | body (instrs : List Instr)
  | errorParagraph (text : String)

/-- Per-file processing of `create_pdf` (lines 52-112): a new page with the
header, then either the rendered code body, or — when reading, decoding or
tokenizing the file raised — a single plain-styled error paragraph built
from the path and the exception text (line 111). -/
def processFile (fontName : String) (fontSize : Nat) (defaultColor : RGB) {κ : Type}
    (styleOf : κ → StyleSpec) (file : FileInput κ) : List PageInstr :=
  PageInstr.pageStart file.path ::
    match file.content with
    | Except.ok toks => [PageInstr.body (renderFile fontName fontSize defaultColor styleOf toks)]
    | Except.error e =>
      [PageInstr.errorParagraph ("Error processing file " ++ file.path ++ ": " ++ e)]

/-- The whole document body of `create_pdf`: every file processed in order,
independently of the others. -/
def create_pdf (fontName : String) (fontSize : Nat) (defaultColor : RGB) {κ : Type}
    (styleOf : κ → StyleSpec) (files : List (FileInput κ)) : List PageInstr :=
  (files.map (processFile fontName fontSize defaultColor styleOf)).flatten

/-- Outcome of a run of `main` (lines 128-134): either the no-files message
with nothing written, or the written output file, its contents and the
success message. -/
inductive MainResult (κ : Type) where
  | noFiles (message : String)
  | written (outputFile : String) (doc : List PageInstr) (message : String)

/-- `main` (lines 117-134): discover the files, report and stop when none
match, otherwise build and write the document and report success. -/
def main_run (fontName : String) (fontSize : Nat) (defaultColor : RGB) {κ : Type}
    (styleOf : κ → StyleSpec) (extensions exclude_suffixes : List String)
    (output : String) (available : List (FileInput κ)) : MainResult κ :=
  let files := available.filter fun f => matchesFile extensions exclude_suffixes f.path
  if files.isEmpty then
    MainResult.noFiles "No files found with the specified extensions."
  else
    MainResult.written output (create_pdf fontName fontSize defaultColor styleOf files)
      ("Successfully generated " ++ output)

theorem splitNl_ne_nil (l : List Char) : splitNl l ≠ [] := by
  cases l with
  | nil => simp [splitNl]
  | cons c cs =>
    simp only [splitNl]
    split
    · simp
    · cases h : splitNl cs <;> simp

theorem intercalateNl_cons (s : List Char) (r : List (List Char)) (h : r ≠ []) :
    intercalateNl (s :: r) = s ++ '\n' :: intercalateNl r := by
  cases r with
  | nil => exact absurd rfl h
  | cons a b => rfl

theorem intercalateNl_splitNl (l : List Char) : intercalateNl (splitNl l) = l := by
  induction l with
  | nil => rfl
  | cons c cs ih =>
    simp only [splitNl]
    split
    · next hc =>
      rw [intercalateNl_cons _ _ (splitNl_ne_nil cs), ih, hc]
      rfl
    · next hc =>
      cases h : splitNl cs with
      | nil => exact absurd h (splitNl_ne_nil cs)
      | cons s rest =>
        rw [h] at ih
        cases rest with
        | nil => simpa [intercalateNl] using congrArg (c :: ·) ih
        | cons s2 rest2 =>
          rw [intercalateNl_cons _ _ (by simp)]
          rw [intercalateNl_cons _ _ (by simp)] at ih
          simpa using congrArg (c :: ·) ih

theorem splitNl_length (l : List Char) : (splitNl l).length = countNl l + 1 := by
  induction l with
  | nil => rfl
  | cons c cs ih =>
    simp only [splitNl, countNl]
    split
    · simp only [List.length_cons, ih]; omega
    · cases h : splitNl cs with
      | nil => exact absurd h (splitNl_ne_nil cs)
      | cons s rest => rw [h] at ih; simp only [List.length_cons] at ih ⊢; omega

theorem countNl_eq_zero_splitNl (l : List Char) (h : countNl l = 0) : splitNl l = [l] := by
  induction l with
  | nil => rfl
  | cons c cs ih =>
    simp only [countNl] at h
    have hc : ¬ c = '\n' := by
      intro hc; rw [if_pos hc] at h; omega
    have hcs : countNl cs = 0 := by
      rw [if_neg hc] at h; omega
    simp only [splitNl, if_neg hc, ih hcs]

theorem splitNl_no_nl (l : List Char) : ∀ s ∈ splitNl l, '\n' ∉ s := by
  induction l with
  | nil =>
    intro s hs
    simp [splitNl] at hs
    simp [hs]
  | cons c cs ih =>
    intro s hs
    simp only [splitNl] at hs
    split at hs
    · rcases List.mem_cons.mp hs with h | h
      · simp [h]
      · exact ih s h
    · next hc =>
      cases h : splitNl cs with
      | nil => exact absurd h (splitNl_ne_nil cs)
      | cons s1 rest =>
        rw [h] at hs
        rcases List.mem_cons.mp hs with h1 | h1
        · subst h1
          intro hmem
          rcases List.mem_cons.mp hmem with h2 | h2
          · exact hc h2.symm
          · exact ih s1 (h ▸ List.mem_cons_self s1 rest) h2
        · exact ih s (h ▸ List.mem_cons_of_mem s1 h1)

theorem reconstruct_append (a b : List Instr) :
    reconstruct (a ++ b) = reconstruct a ++ reconstruct b := by
  induction a with
  | nil => rfl
  | cons x rest ih => cases x <;> simp [reconstruct, ih]

theorem reconstruct_renderSegs (c : RGB) (n : Nat) (segs : List (List Char)) (h : segs ≠ []) :
    reconstruct (renderSegs c n segs).1 = intercalateNl segs := by
  induction segs generalizing n with
  | nil => exact absurd rfl h
  | cons seg rest ih =>
    cases rest with
    | nil =>
      simp only [renderSegs, intercalateNl]
      split
      · next hemp => simp [reconstruct, List.isEmpty_iff.mp hemp]
      · simp [reconstruct]
    | cons next rest2 =>
      simp only [renderSegs]
      rw [reconstruct_append, intercalateNl_cons _ _ (by simp)]
      split
      · next hemp => simp [reconstruct, ih (n + 1) (by simp), List.isEmpty_iff.mp hemp]
      · simp [reconstruct, ih (n + 1) (by simp)]

theorem renderSegs_snd (c : RGB) (n : Nat) (segs : List (List Char)) :
    (renderSegs c n segs).2 = n + (segs.length - 1) := by
  induction segs generalizing n with
  | nil => simp [renderSegs]
  | cons seg rest ih =>
    cases rest with
    | nil => simp [renderSegs]
    | cons next rest2 =>
      simp only [renderSegs, ih (n + 1), List.length_cons]
      omega

theorem labelCount_append (a b : List Instr) :
    labelCount (a ++ b) = labelCount a + labelCount b := by
  induction a with
  | nil => simp [labelCount]
  | cons x rest ih => cases x <;> simp [labelCount, ih] <;> try omega

theorem labelCount_renderSegs (c : RGB) (n : Nat) (segs : List (List Char)) :
    labelCount (renderSegs c n segs).1 = segs.length - 1 := by
  induction segs generalizing n with
  | nil => simp [renderSegs, labelCount]
  | cons seg rest ih =>
    cases rest with
    | nil =>
      simp only [renderSegs]
      split <;> simp [labelCount]
    | cons next rest2 =>
      simp only [renderSegs, labelCount_append, labelCount, ih (n + 1)]
      split <;> simp [labelCount, List.length_cons]

theorem labelsFollowedBy_append_of_no_label (c : RGB) (a b : List Instr)
    (h : labelCount a = 0) : labelsFollowedBy c (a ++ b) = labelsFollowedBy c b := by
  induction a with
  | nil => rfl
  | cons x rest ih =>
    cases x with
    | label m t c2 => simp [labelCount] at h
    | setFont f s z => simp only [labelCount] at h; simp [labelsFollowedBy, ih h]
    | setColor c2 => simp only [labelCount] at h; simp [labelsFollowedBy, ih h]
    | run t => simp only [labelCount] at h; simp [labelsFollowedBy, ih h]
    | lineBreak => simp only [labelCount] at h; simp [labelsFollowedBy, ih h]

theorem labelsFollowedBy_renderSegs (c : RGB) (n : Nat) (segs : List (List Char)) :
    labelsFollowedBy c (renderSegs c n segs).1 = true := by
  induction segs generalizing n with
  | nil => rfl
  | cons seg rest ih =>
    cases rest with
    | nil =>
      simp only [renderSegs]
      split <;> simp [labelsFollowedBy]
    | cons next rest2 =>
      simp only [renderSegs]
      rw [labelsFollowedBy_append_of_no_label c _ _ (by split <;> simp [labelCount])]
      simp [labelsFollowedBy, ih (n + 1)]

theorem renderSegs_run_no_nl (c : RGB) (n : Nat) (segs : List (List Char))
    (hsegs : ∀ s ∈ segs, '\n' ∉ s) :
    ∀ instr ∈ (renderSegs c n segs).1, ∀ t, instr = Instr.run t → '\n' ∉ t := by
  induction segs generalizing n with
  | nil => intro instr h; simp [renderSegs] at h
  | cons seg rest ih =>
    cases rest with
    | nil =>
      intro instr hmem t heq
      simp only [renderSegs] at hmem
      split at hmem
      · simp at hmem
      · simp only [List.mem_singleton] at hmem
        subst hmem
        cases heq
        exact hsegs seg (by simp)
    | cons next rest2 =>
      intro instr hmem t heq
      simp only [renderSegs, List.mem_append, List.mem_cons] at hmem
      rcases hmem with h1 | h1 | h1 | h1 | h1
      · split at h1
        · simp at h1
        · simp only [List.mem_singleton] at h1
          subst h1; cases heq
          exact hsegs seg (by simp)
      · subst h1; cases heq
      · subst h1; cases heq
      · subst h1; cases heq
      · exact ih (n + 1) (fun s hs => hsegs s (List.mem_cons_of_mem seg hs)) instr h1 t heq

theorem renderToken_snd (fontName : String) (fontSize : Nat) (spec : StyleSpec) (n : Nat)
    (t : List Char) : (renderToken fontName fontSize spec n t).2 = n + countNl t := by
  simp only [renderToken, renderSegs_snd, splitNl_length]
  omega

theorem labelCount_renderToken (fontName : String) (fontSize : Nat) (spec : StyleSpec) (n : Nat)
    (t : List Char) : labelCount (renderToken fontName fontSize spec n t).1 = countNl t := by
  simp only [renderToken, labelCount, labelCount_renderSegs, splitNl_length]
  omega

theorem labelsFollowedBy_renderToken (fontName : String) (fontSize : Nat) (spec : StyleSpec)
    (n : Nat) (t : List Char) :
    labelsFollowedBy spec.color (renderToken fontName fontSize spec n t).1 = true := by
  simp only [renderToken, labelsFollowedBy, labelsFollowedBy_renderSegs]

theorem reconstruct_renderToken (fontName : String) (fontSize : Nat) (spec : StyleSpec) (n : Nat)
    (t : List Char) : reconstruct (renderToken fontName fontSize spec n t).1 = t := by
  simp only [renderToken, reconstruct]
  rw [reconstruct_renderSegs _ _ _ (splitNl_ne_nil t), intercalateNl_splitNl]

theorem reconstruct_renderTokens (fontName : String) (fontSize : Nat) {κ : Type}
    (styleOf : κ → StyleSpec) (n : Nat) (tokens : List (κ × List Char)) :
    reconstruct (renderTokens fontName fontSize styleOf n tokens).1 =
      (tokens.map Prod.snd).flatten := by
  induction tokens generalizing n with
  | nil => rfl
  | cons tok rest ih =>
    obtain ⟨k, t⟩ := tok
    simp only [renderTokens, reconstruct_append, reconstruct_renderToken, List.map_cons,
      List.flatten_cons, ih]

theorem renderTokens_run_no_nl (fontName : String) (fontSize : Nat) {κ : Type}
    (styleOf : κ → StyleSpec) (n : Nat) (tokens : List (κ × List Char)) :
    ∀ instr ∈ (renderTokens fontName fontSize styleOf n tokens).1,
      ∀ t, instr = Instr.run t → '\n' ∉ t := by
  induction tokens generalizing n with
  | nil => intro instr h; simp [renderTokens] at h
  | cons tok rest ih =>
    obtain ⟨k, tv⟩ := tok
    intro instr hmem t heq
    simp only [renderTokens, List.mem_append] at hmem
    rcases hmem with h | h
    · simp only [renderToken, List.mem_cons] at h
      rcases h with h | h | h
      · subst h; simp at heq
      · subst h; simp at heq
      · exact renderSegs_run_no_nl _ _ _ (splitNl_no_nl tv) instr h t heq
    · exact ih _ instr h t heq

theorem all_labelWellFormed_renderSegs (c : RGB) (n : Nat) (segs : List (List Char)) :
    ((renderSegs c n segs).1).all labelWellFormed = true := by
  induction segs generalizing n with
  | nil => rfl
  | cons seg rest ih =>
    cases rest with
    | nil =>
      simp only [renderSegs]
      split <;> simp [labelWellFormed]
    | cons next rest2 =>
      simp only [renderSegs, List.all_append, List.all_cons]
      refine Bool.and_eq_true_iff.mpr ⟨?_, ?_⟩
      · split <;> simp [labelWellFormed]
      · simp [labelWellFormed, ih (n + 1)]

theorem all_labelWellFormed_renderTokens (fontName : String) (fontSize : Nat) {κ : Type}
    (styleOf : κ → StyleSpec) (n : Nat) (tokens : List (κ × List Char)) :
    ((renderTokens fontName fontSize styleOf n tokens).1).all labelWellFormed = true := by
  induction tokens generalizing n with
  | nil => rfl
  | cons tok rest ih =>
    obtain ⟨k, t⟩ := tok
    simp only [renderTokens, List.all_append, renderToken, List.all_cons]
    simp [labelWellFormed, all_labelWellFormed_renderSegs, ih]

theorem all_labelWellFormed_renderFile (fontName : String) (fontSize : Nat) (defaultColor : RGB)
    {κ : Type} (styleOf : κ → StyleSpec) (tokens : List (κ × List Char)) :
    (renderFile fontName fontSize defaultColor styleOf tokens).all labelWellFormed = true := by
  simp only [renderFile, List.all_cons, List.all_append]
  simp [labelWellFormed, all_labelWellFormed_renderTokens]

theorem all_plainFontStyle_renderSegs (c : RGB) (n : Nat) (segs : List (List Char)) :
    ((renderSegs c n segs).1).all plainFontStyle = true := by
  induction segs generalizing n with
  | nil => rfl
  | cons seg rest ih =>
    cases rest with
    | nil =>
      simp only [renderSegs]
      split <;> simp [plainFontStyle]
    | cons next rest2 =>
      simp only [renderSegs, List.all_append, List.all_cons]
      refine Bool.and_eq_true_iff.mpr ⟨?_, ?_⟩
      · split <;> simp [plainFontStyle]
      · simp [plainFontStyle, ih (n + 1)]

theorem all_plainFontStyle_renderTokens (fontName : String) (fontSize : Nat) {κ : Type}
    (styleOf : κ → StyleSpec) (hf : ∀ spec, fontStyle fontName spec = "") (n : Nat)
    (tokens : List (κ × List Char)) :
    ((renderTokens fontName fontSize styleOf n tokens).1).all plainFontStyle = true := by
  induction tokens generalizing n with
  | nil => rfl
  | cons tok rest ih =>
    obtain ⟨k, t⟩ := tok
    simp only [renderTokens, List.all_append, renderToken, List.all_cons]
    simp [plainFontStyle, hf, all_plainFontStyle_renderSegs, ih, String.isEmpty_iff]

theorem fontStyle_of_ne_courier (fontName : String) (h : fontName ≠ "Courier")
    (spec : StyleSpec) : fontStyle fontName spec = "" := by
  simp [fontStyle, h]

theorem matchesFile_eq (extensions exclude_suffixes : List String) (f : String) :
    matchesFile extensions exclude_suffixes f =
      ((extensions.any fun ext => strEndsWith f ext) &&
        !(exclude_suffixes.any fun suffix => strEndsWith f suffix)) := by
  unfold matchesFile
  cases h1 : extensions.any fun ext => strEndsWith f ext <;>
    cases h2 : exclude_suffixes.any fun suffix => strEndsWith f suffix <;>
      simp [h1, h2]

/-- Claim C1: for every file and token sequence, concatenating the text of
all RenderRuns in emission order and inserting a line-break character at
every emitted line-break-signal reconstructs the file's original content,
i.e. the concatenation of all token texts, exactly. -/
theorem claim_roundTripReconstruction (fontName : String) (fontSize : Nat) (defaultColor : RGB)
    {κ : Type} (styleOf : κ → StyleSpec) (tokens : List (κ × List Char)) :
    reconstruct (renderFile fontName fontSize defaultColor styleOf tokens) =
      (tokens.map Prod.snd).flatten := by
  simp only [renderFile, reconstruct, List.append_eq, reconstruct_append,
    reconstruct_renderTokens, List.append_nil]

/-- Claim C2: a token whose text embeds k line breaks with k at least 1
advances the line counter exactly k times, emits exactly k LineNumberLabels,
and every such label is immediately followed by a reset to the token's own
resolved color (not the default), so the token's color spans its embedded
line breaks. -/
theorem claim_tokenWithBreaks (fontName : String) (fontSize : Nat) (spec : StyleSpec)
    (n : Nat) (t : List Char) (h : 1 ≤ countNl t) :
    (renderToken fontName fontSize spec n t).2 = n + countNl t ∧
    labelCount (renderToken fontName fontSize spec n t).1 = countNl t ∧
    labelsFollowedBy spec.color (renderToken fontName fontSize spec n t).1 = true :=
  ⟨renderToken_snd fontName fontSize spec n t,
   labelCount_renderToken fontName fontSize spec n t,
   labelsFollowedBy_renderToken fontName fontSize spec n t⟩

/-- Witness for the claim C2 theorem at the three-character token text with
one embedded line break. -/
theorem claim_tokenWithBreaks_witness :
    1 ≤ countNl ['a', '\n', 'b'] ∧
    ((renderToken "Courier" 10 ⟨(0, 0, 255), false, false⟩ 1 ['a', '\n', 'b']).2 =
        1 + countNl ['a', '\n', 'b'] ∧
      labelCount (renderToken "Courier" 10 ⟨(0, 0, 255), false, false⟩ 1 ['a', '\n', 'b']).1 =
        countNl ['a', '\n', 'b'] ∧
      labelsFollowedBy (0, 0, 255)
        (renderToken "Courier" 10 ⟨(0, 0, 255), false, false⟩ 1 ['a', '\n', 'b']).1 = true) :=
  ⟨by decide,
   claim_tokenWithBreaks "Courier" 10 ⟨(0, 0, 255), false, false⟩ 1 ['a', '\n', 'b'] (by decide)⟩

/-- Claim C3 as stated is refuted by a token with empty text: it contains no
embedded line break, yet the renderer emits zero RenderRuns for it rather
than exactly one, because the guard at line 98 skips empty segments. -/
theorem claim_singleRunPerToken_counterexample :
    countNl [] = 0 ∧
    runCount (renderToken "Courier" 10 ⟨(0, 0, 0), false, false⟩ 1 []).1 = 0 := by
  decide

/-- Claim C3 amended: every token with nonempty text containing no embedded
line break yields exactly the instructions setFont (with the style resolved
from the token's kind), setColor (the token's resolved color) and a single
RenderRun carrying the full token text, and the line counter does not
advance during that token's processing. -/
theorem claim_singleRunPerToken (fontName : String) (fontSize : Nat) (spec : StyleSpec)
    (n : Nat) (t : List Char) (h0 : countNl t = 0) (h1 : t ≠ []) :
    (renderToken fontName fontSize spec n t).1 =
      [Instr.setFont fontName (fontStyle fontName spec) fontSize,
        Instr.setColor spec.color, Instr.run t] ∧
    (renderToken fontName fontSize spec n t).2 = n := by
  have hs := countNl_eq_zero_splitNl t h0
  refine ⟨?_, ?_⟩
  · simp [renderToken, hs, renderSegs, List.isEmpty_iff, h1]
  · simp [renderToken, hs, renderSegs]

/-- Witness for the amended claim C3 theorem at a one-character token. -/
theorem claim_singleRunPerToken_witness :
    (countNl ['a'] = 0 ∧ ['a'] ≠ ([] : List Char)) ∧
    ((renderToken "Courier" 10 ⟨(0, 0, 0), true, false⟩ 3 ['a']).1 =
      [Instr.setFont "Courier" (fontStyle "Courier" ⟨(0, 0, 0), true, false⟩) 10,
        Instr.setColor (0, 0, 0), Instr.run ['a']] ∧
      (renderToken "Courier" 10 ⟨(0, 0, 0), true, false⟩ 3 ['a']).2 = 3) :=
  ⟨⟨by decide, by decide⟩,
   claim_singleRunPerToken "Courier" 10 ⟨(0, 0, 0), true, false⟩ 3 ['a'] (by decide) (by decide)⟩

/-- Claim C4: the instruction stream of every file body opens with the
line-1 label in the fixed gray (128,128,128) immediately followed by a
reset to the theme's default text color, and its final instruction is a
reset to the default text color. -/
theorem claim_fileColorBracketing (fontName : String) (fontSize : Nat) (defaultColor : RGB)
    {κ : Type} (styleOf : κ → StyleSpec) (tokens : List (κ × List Char)) :
    (renderFile fontName fontSize defaultColor styleOf tokens).head? =
      some (Instr.label 1 (fmtLineNum 1) (128, 128, 128)) ∧
    (renderFile fontName fontSize defaultColor styleOf tokens)[1]? =
      some (Instr.setColor defaultColor) ∧
    (renderFile fontName fontSize defaultColor styleOf tokens).getLast? =
      some (Instr.setColor defaultColor) := by
  refine ⟨by rfl, by simp [renderFile], ?_⟩
  have h : renderFile fontName fontSize defaultColor styleOf tokens =
      (Instr.label 1 (fmtLineNum 1) gray :: Instr.setColor defaultColor ::
        (renderTokens fontName fontSize styleOf 1 tokens).1) ++
        [Instr.setColor defaultColor] := by
    simp [renderFile]
  rw [h, List.getLast?_concat]

/-- Claim C5 as stated is refuted: the label emitted for line 1 reads
"   1 ", the number right-aligned in its 4-character field, while the
claimed left-aligned formatting would read "1    ". -/
theorem claim_labelLeftAligned_counterexample :
    (renderFile "Courier" 10 (0, 0, 0) (fun _ : Unit => ⟨(0, 0, 0), false, false⟩) []).head? =
      some (Instr.label 1 "   1 " (128, 128, 128)) ∧
    fmtLineNumLeftAligned 1 = "1    " ∧
    ("   1 " : String) ≠ "1    " := by
  decide

/-- Claim C5 amended: every emitted label carries its line number formatted
right-aligned in a fixed 4-character minimum field, space-padded on the
left, followed by one separator space, in the fixed gray; and label emission
does not itself change the line counter, which is determined solely by the
number of line breaks in the processed text. -/
theorem claim_labelFormat (fontName : String) (fontSize : Nat) (defaultColor : RGB)
    {κ : Type} (styleOf : κ → StyleSpec) (tokens : List (κ × List Char)) :
    (renderFile fontName fontSize defaultColor styleOf tokens).all labelWellFormed = true ∧
    fmtLineNum 1 = "   1 " ∧ fmtLineNum 42 = "  42 " ∧ fmtLineNum 12345 = "12345 " ∧
    ∀ (spec : StyleSpec) (n : Nat) (t : List Char),
      (renderToken fontName fontSize spec n t).2 = n + countNl t :=
  ⟨all_labelWellFormed_renderFile fontName fontSize defaultColor styleOf tokens,
   by decide, by decide, by decide,
   fun spec n t => renderToken_snd fontName fontSize spec n t⟩

/-- Claim C6: for every token sequence, no RenderRun emitted in the file's
instruction stream has text containing a line-break character. -/
theorem claim_runsHaveNoLineBreak (fontName : String) (fontSize : Nat) (defaultColor : RGB)
    {κ : Type} (styleOf : κ → StyleSpec) (tokens : List (κ × List Char)) :
    ∀ instr ∈ renderFile fontName fontSize defaultColor styleOf tokens,
      ∀ t, instr = Instr.run t → '\n' ∉ t := by
  intro instr hmem t heq
  simp only [renderFile, List.mem_cons, List.mem_append, List.mem_singleton] at hmem
  rcases hmem with (h | h | h) | (h | h)
  · subst h; simp at heq
  · subst h; simp at heq
  · exact renderTokens_run_no_nl fontName fontSize styleOf 1 tokens instr h t heq
  · subst h; simp at heq
  · simp at h

/-- Witness for the claim C6 theorem: a concrete run instruction inside a
concrete file stream. -/
theorem claim_runsHaveNoLineBreak_witness :
    (Instr.run ['a'] ∈
      renderFile "Courier" 10 (0, 0, 0) (fun _ : Unit => ⟨(0, 0, 0), false, false⟩)
        [((), ['a'])]) ∧
    '\n' ∉ ['a'] :=
  ⟨by decide,
   claim_runsHaveNoLineBreak "Courier" 10 (0, 0, 0) (fun _ : Unit => ⟨(0, 0, 0), false, false⟩)
     [((), ['a'])] (Instr.run ['a']) (by decide) ['a'] rfl⟩

/-- Claim C7: file discovery keeps exactly the files whose name ends with
one of the accepted extensions and with none of the excluded suffixes, with
exclusion taking precedence when both match; in particular, with extensions
[".py"] and exclude-suffix ["_test.py"], the listing a.py, a_test.py, b.txt
yields exactly a.py. -/
theorem claim_findFilesSelection (extensions exclude_suffixes files : List String)
    (f : String) :
    (f ∈ find_files extensions exclude_suffixes files ↔
      f ∈ files ∧ (extensions.any fun ext => strEndsWith f ext) = true ∧
        (exclude_suffixes.any fun suffix => strEndsWith f suffix) = false) ∧
    find_files [".py"] ["_test.py"] ["a.py", "a_test.py", "b.txt"] = ["a.py"] := by
  refine ⟨?_, by decide⟩
  rw [find_files, List.mem_filter, matchesFile_eq]
  simp [Bool.and_eq_true, Bool.not_eq_true']

/-- Claim C8: a file whose read, decode or tokenization failed contributes
exactly its page header and a single plain error paragraph containing its
path and the failure reason, in place of the code body, and the files
before and after it are processed exactly as they would be on their own. -/
theorem claim_perFileFailureIsolated (fontName : String) (fontSize : Nat) (defaultColor : RGB)
    {κ : Type} (styleOf : κ → StyleSpec) (pre post : List (FileInput κ))
    (file : FileInput κ) (e : String) (h : file.content = Except.error e) :
    create_pdf fontName fontSize defaultColor styleOf (pre ++ file :: post) =
      create_pdf fontName fontSize defaultColor styleOf pre ++
        [PageInstr.pageStart file.path,
          PageInstr.errorParagraph ("Error processing file " ++ file.path ++ ": " ++ e)] ++
        create_pdf fontName fontSize defaultColor styleOf post := by
  simp [create_pdf, processFile, h]

/-- Witness for the claim C8 theorem: one failing file between two good
ones. -/
theorem claim_perFileFailureIsolated_witness :
    create_pdf "Courier" 10 (0, 0, 0) (fun _ : Unit => ⟨(0, 0, 0), false, false⟩)
        ([⟨"ok1.py", Except.ok [((), ['x'])]⟩] ++
          (⟨"bad.py", Except.error "boom"⟩ : FileInput Unit) :: [⟨"ok2.py", Except.ok []⟩]) =
      create_pdf "Courier" 10 (0, 0, 0) (fun _ : Unit => ⟨(0, 0, 0), false, false⟩)
          [⟨"ok1.py", Except.ok [((), ['x'])]⟩] ++
        [PageInstr.pageStart (FileInput.path (κ := Unit) ⟨"bad.py", Except.error "boom"⟩),
          PageInstr.errorParagraph
            ("Error processing file " ++
              FileInput.path (κ := Unit) ⟨"bad.py", Except.error "boom"⟩ ++ ": " ++ "boom")] ++
        create_pdf "Courier" 10 (0, 0, 0) (fun _ : Unit => ⟨(0, 0, 0), false, false⟩)
          [⟨"ok2.py", Except.ok []⟩] :=
  claim_perFileFailureIsolated "Courier" 10 (0, 0, 0) (fun _ : Unit => ⟨(0, 0, 0), false, false⟩)
    [⟨"ok1.py", Except.ok [((), ['x'])]⟩] [⟨"ok2.py", Except.ok []⟩]
    ⟨"bad.py", Except.error "boom"⟩ "boom" rfl

/-- Claim C9: when discovery yields no files the run reports the no-files
message and carries no document; otherwise it writes the document built
from the discovered files and reports success. -/
theorem claim_mainExitBehavior (fontName : String) (fontSize : Nat) (defaultColor : RGB)
    {κ : Type} (styleOf : κ → StyleSpec) (extensions exclude_suffixes : List String)
    (output : String) (available : List (FileInput κ)) :
    ((available.filter fun f => matchesFile extensions exclude_suffixes f.path).isEmpty =
        true →
      main_run fontName fontSize defaultColor styleOf extensions exclude_suffixes output
          available =
        MainResult.noFiles "No files found with the specified extensions.") ∧
    ((available.filter fun f => matchesFile extensions exclude_suffixes f.path).isEmpty =
        false →
      main_run fontName fontSize defaultColor styleOf extensions exclude_suffixes output
          available =
        MainResult.written output
          (create_pdf fontName fontSize defaultColor styleOf
            (available.filter fun f => matchesFile extensions exclude_suffixes f.path))
          ("Successfully generated " ++ output)) := by
  constructor <;> intro h <;> simp [main_run, h]

/-- Witness for the claim C9 theorem: the empty listing reports no files,
and a single matching file produces the written document. -/
theorem claim_mainExitBehavior_witness :
    (main_run "Courier" 10 (0, 0, 0) (fun _ : Unit => ⟨(0, 0, 0), false, false⟩) [".py"] []
        "out.pdf" [] =
      MainResult.noFiles "No files found with the specified extensions.") ∧
    (main_run "Courier" 10 (0, 0, 0) (fun _ : Unit => ⟨(0, 0, 0), false, false⟩) [".py"] []
        "out.pdf" [⟨"a.py", Except.ok []⟩] =
      MainResult.written "out.pdf"
        (create_pdf "Courier" 10 (0, 0, 0) (fun _ : Unit => ⟨(0, 0, 0), false, false⟩)
          (List.filter (fun f => matchesFile [".py"] [] f.path)
            [⟨"a.py", Except.ok []⟩]))
        ("Successfully generated " ++ "out.pdf")) :=
  ⟨(claim_mainExitBehavior "Courier" 10 (0, 0, 0) (fun _ : Unit => ⟨(0, 0, 0), false, false⟩)
      [".py"] [] "out.pdf" []).1 rfl,
   (claim_mainExitBehavior "Courier" 10 (0, 0, 0) (fun _ : Unit => ⟨(0, 0, 0), false, false⟩)
      [".py"] [] "out.pdf" [⟨"a.py", Except.ok []⟩]).2 (by decide)⟩

/-- Claim C10: when a custom font path was supplied and the font loaded,
every setFont instruction in the rendered stream carries an empty style
string, so the theme's bold and italic flags are never applied; with the
built-in Courier font the style string is exactly the concatenation of the
token's bold and italic flags. -/
theorem claim_customFontPlainStyle (fontPath : String) (fontSize : Nat) (defaultColor : RGB)
    {κ : Type} (styleOf : κ → StyleSpec) (tokens : List (κ × List Char)) (spec : StyleSpec) :
    (renderFile (resolveFontName (some fontPath) true) fontSize defaultColor styleOf
        tokens).all plainFontStyle = true ∧
    fontStyle "Courier" spec =
      (if spec.bold then "B" else "") ++ (if spec.italic then "I" else "") := by
  constructor
  · have hf : ∀ s : StyleSpec, fontStyle (resolveFontName (some fontPath) true) s = "" :=
      fun s => fontStyle_of_ne_courier "CustomFont" (by decide) s
    simp only [renderFile, List.all_cons, List.all_append]
    simp [plainFontStyle,
      all_plainFontStyle_renderTokens (resolveFontName (some fontPath) true) fontSize styleOf
        hf 1 tokens]
  · simp [fontStyle]

